import Mathlib

/-!
Verification of the fuel-consumption data pipeline
(`pipeline/src/datadownload.py`).

The pandas dataframes are modelled shallowly: a dataframe is a list of
column names together with a list of rows, where each cell is an
`Option String` (`none` plays the role of NaN / null).  Python string
operations used by the pipeline are modelled as executable functions on
`List Char`.  All definitions follow the Python source; theorems state
the documented properties of the pipeline.
-/

set_option linter.unusedVariables false

/-- Lowercase a character, as Python `str.lower` acts on ASCII letters. -/
def lowerChar (c : Char) : Char :=
  if 65 ≤ c.toNat ∧ c.toNat ≤ 90 then Char.ofNat (c.toNat + 32) else c

/-- Lowercase every character of a list. -/
def lowerChars (l : List Char) : List Char :=
  l.map lowerChar

/-- Python `str.lower` on a string. -/
def strLower (s : String) : String :=
  String.mk (lowerChars s.data)

/-- Drop whitespace from both ends, as Python `str.strip`. -/
def stripChars (l : List Char) : List Char :=
  ((l.dropWhile Char.isWhitespace).reverse.dropWhile Char.isWhitespace).reverse

/-- Python `str.strip` on a string. -/
def strStrip (s : String) : String :=
  String.mk (stripChars s.data)

/-- Replace each colon by a space-dash pair, as in
`.str.replace(":", " -")` of the vehicle class cleaning. -/
def colonDash : List Char → List Char
  | [] => []
  | c :: cs => if c = ':' then ' ' :: '-' :: colonDash cs else c :: colonDash cs

/-- String version of `colonDash`. -/
def strReplaceColon (s : String) : String :=
  String.mk (colonDash s.data)

/-- Does the first list occur as a Prefix of the second list? -/
def startsWith : List Char → List Char → Bool
  | [], _ => true
  | _ :: _, [] => false
  | p :: ps, c :: cs => p == c && startsWith ps cs

/-- Does the first list occur as a contiguous substring of the second?
This models the Python operator `in` on strings. -/
def occursIn (pat : List Char) : List Char → Bool
  | [] => pat.isEmpty
  | c :: cs => startsWith pat (c :: cs) || occursIn pat cs

/-- The footnote token removed from synthesized column names. -/
def tokChars : List Char := "#=highoutputengine".data

/-- Remove every occurrence of `tokChars`, scanning left to right without
overlap, as Python `str.replace("#=highoutputengine", "")`.  The first
argument counts characters that remain to be skipped after a match. -/
def removeTokAux : Nat → List Char → List Char
  | _, [] => []
  | Nat.succ k, _ :: cs => removeTokAux k cs
  | 0, c :: cs =>
    if startsWith tokChars (c :: cs) then removeTokAux 17 cs
    else c :: removeTokAux 0 cs

/-- Remove every occurrence of the footnote token. -/
def removeTok (l : List Char) : List Char :=
  removeTokAux 0 l

/-- The pattern of the regular expression `unnamed: \d*`. -/
def unnamedPat : List Char := "unnamed: ".data

/-- The replacement text used for unnamed placeholder columns. -/
def unnamedRep : List Char := "fuel consumption".data

/-- The literal substring `unnamed`. -/
def unnamedChars : List Char := "unnamed".data

/-- One pass of `re.sub(r"unnamed: \d*", "fuel consumption", item)`:
scan left to right; on a match emit the replacement, skip the matched
text and then greedily skip the digit run.  The counter holds characters
still to be skipped and the flag records digit-skipping mode. -/
def subUnAux : Nat → Bool → List Char → List Char
  | _, _, [] => []
  | Nat.succ k, m, _ :: cs => subUnAux k m cs
  | 0, true, c :: cs =>
    if c.isDigit then subUnAux 0 true cs
    else if startsWith unnamedPat (c :: cs) then unnamedRep ++ subUnAux 8 true cs
    else c :: subUnAux 0 false cs
  | 0, false, c :: cs =>
    if startsWith unnamedPat (c :: cs) then unnamedRep ++ subUnAux 8 true cs
    else c :: subUnAux 0 false cs

/-- `re.sub(r"unnamed: \d*", "fuel consumption", item)`. -/
def subUnnamed (l : List Char) : List Char :=
  subUnAux 0 false l

/-- Group a character list into maximal runs of digits and non-digits.
Each chunk is tagged with `true` when it is a digit run. -/
def chunkify : List Char → List (Bool × List Char)
  | [] => []
  | c :: rest =>
    match chunkify rest with
    | [] => [(c.isDigit, [c])]
    | (b, g) :: t =>
      if c.isDigit = b then (b, c :: g) :: t
      else (c.isDigit, [c]) :: (b, g) :: t

/-- Rebuild the output of `re.split(r"(\d+)", s)` from the chunks: digit
groups are interleaved with (possibly empty) text pieces, and the result
always starts and ends with a text piece. -/
def assemble : List (Bool × List Char) → List (List Char)
  | [] => [[]]
  | (true, g) :: rest => [] :: g :: assemble rest
  | (false, t) :: rest =>
    match assemble rest with
    | [] => [t]
    | h :: tl => (t ++ h) :: tl

/-- `re.split(r"(\d+)", s)` as used by `.str.split(r"(\d+)", expand=True)`. -/
def reSplitDigits (s : String) : List String :=
  (assemble (chunkify s.data)).map String.mk

/-- Python dict lookup on an association list (keys are unique in the
source dictionaries, so first match is the dict lookup). -/
def lookupAssoc : List (String × String) → String → Option String
  | [], _ => none
  | (k, v) :: rest, s => if k = s then some v else lookupAssoc rest s

/-- `drop_duplicates(keep="first")` on a list of rows: scan left to
right and keep only the first sighting of each value.  The accumulator
holds the values already seen. -/
def keepFirstScan {α : Type} [DecidableEq α] (seen : List α) : List α → List α
  | [] => []
  | x :: xs =>
    if x ∈ seen then keepFirstScan seen xs
    else x :: keepFirstScan (x :: seen) xs

/-- Alternative formulation of duplicate removal: keep the head and
delete its later occurrences, then recurse. -/
def dedupFilter {α : Type} [DecidableEq α] : List α → List α
  | [] => []
  | x :: xs => x :: dedupFilter (xs.filter (fun y => y != x))
termination_by l => l.length
decreasing_by
  simp only [List.length_cons]
  exact Nat.lt_succ_of_le (List.length_filter_le _ xs)

/-- A pandas dataframe: column labels and rows of nullable string cells. -/
structure DataFrame where
  columns : List String
  rows : List (List (Option String))
deriving DecidableEq

/-- Value of a row under a column label: walk the labels and the cells in
lockstep and return the cell of the first matching label (pandas column
selection with unique labels). -/
def getCell : List String → List (Option String) → String → Option String
  | [], _, _ => none
  | _ :: _, [], _ => none
  | k :: ks, v :: vs, c => if k = c then v else getCell ks vs c

/-- Replace the cell of the first column with the given label by the
image of the mapping (pandas column assignment `df[c] = df[c].map(f)`). -/
def mapRowAt : List String → List (Option String) → String → (Option String → Option String) → List (Option String)
  | [], r, _, _ => r
  | _ :: _, [], _, _ => []
  | k :: ks, v :: vs, c, f =>
    if k = c then f v :: vs else v :: mapRowAt ks vs c f

/-- Apply a cell transformation to one named column of a dataframe. -/
def mapCol (df : DataFrame) (c : String) (f : Option String → Option String) : DataFrame :=
  ⟨df.columns, df.rows.map (fun r => mapRowAt df.columns r c f)⟩

/-- The cells of a named column, in row order. -/
def getColCells (df : DataFrame) (c : String) : List (Option String) :=
  df.rows.map (fun r => getCell df.columns r c)

/-- Number of non-null cells of a row (`dropna` thresholds). -/
def countSome (r : List (Option String)) : Nat :=
  (r.filter (fun v => v.isSome)).length

/-- Indices of columns kept by `dropna(thresh=1, axis=1)`: columns with
at least one non-null cell. -/
def keptIdxs (df : DataFrame) : List Nat :=
  (List.range df.columns.length).filter
    (fun j => df.rows.any (fun r => ((r[j]?).getD none).isSome))

/-- Restrict a row to the listed column indices. -/
def projectRow (idxs : List Nat) (r : List (Option String)) : List (Option String) :=
  idxs.map (fun j => (r[j]?).getD none)

/-- Labels of the kept columns. -/
def colsKept (df : DataFrame) : List String :=
  (keptIdxs df).map (fun j => (df.columns[j]?).getD "")

/-- Rows after dropping empty columns and rows with `dropna(thresh=1)`. -/
def rowsStage1 (df : DataFrame) : List (List (Option String)) :=
  (df.rows.map (projectRow (keptIdxs df))).filter (fun r => 1 ≤ countSome r)

/-- Column labels lowercased, as `[item.lower() for item in columns]`. -/
def colsLower (df : DataFrame) : List String :=
  (colsKept df).map strLower

/-- Rows surviving the footer drop `dropna(thresh=3, axis=0)`. -/
def rowsStage2 (df : DataFrame) : List (List (Option String)) :=
  (rowsStage1 df).filter (fun r => 3 ≤ countSome r)

/-- Column labels after replacing unnamed placeholders:
`re.sub(r"unnamed: \d*", "fuel consumption", item) if "unnamed" in item`. -/
def cleanedCols (df : DataFrame) : List String :=
  (colsLower df).map
    (fun c => if occursIn unnamedChars c.data then String.mk (subUnnamed c.data) else c)

/-- Stringified cells of the first surviving data row, with NaN turned
into the empty string (`"" if item == "nan" else item`). -/
def strFirstRow (df : DataFrame) : List String :=
  ((rowsStage2 df).headD []).map
    (fun v => match v with
      | none => ""
      | some s => if s = "nan" then "" else s)

/-- Synthesize one column name from the section label and the field
value: lowercase the joined text and delete `*`, spaces and the
high-output-engine footnote token. -/
def joinClean (a b : String) : String :=
  String.mk (removeTok
    ((((a.data ++ '_' :: b.data).map lowerChar).filter
        (fun c => c != '*')).filter (fun c => c != ' ')))

/-- The synthesized column names of the normalizer. -/
def newColumns (df : DataFrame) : List String :=
  List.zipWith joinClean (cleanedCols df) (strFirstRow df)

/-- The Column Normalizer `rename_fuel_data_columns`:
drop empty columns and rows, lowercase headers, drop footer rows,
replace unnamed placeholders, synthesize the joined column names and
drop the now redundant first data row. -/
def rename_fuel_data_columns (df : DataFrame) : DataFrame :=
  ⟨newColumns df, (rowsStage2 df).tail⟩

/-- The frame right after `drop_duplicates(keep="first", inplace=True)`
inside `read_and_clean_df`. -/
def dedupedFrame (df : DataFrame) : DataFrame :=
  ⟨(rename_fuel_data_columns df).columns,
   keepFirstScan [] (rename_fuel_data_columns df).rows⟩

/-- The transmission lookup table `transmission_dict`, in source order. -/
def transmission_dict : List (String × String) :=
  [("A", "automatic"),
   ("AM", "automated manual"),
   ("AS", "automatic with select Shift"),
   ("AV", "continuously variable"),
   ("M", "manual"),
   ("1 – 10", "Number of gears")]

/-- The `transmission_type` cell: part 0 of the regex split of the raw
transmission value, mapped through the transmission lookup. -/
def transmissionTypeCell (v : Option String) : Option String :=
  (v.bind (fun s => (reSplitDigits s)[0]?)).bind (lookupAssoc transmission_dict)

/-- The `number_of_gears` cell: part 1 of the regex split of the raw
transmission value (null when the value has no digit group). -/
def numberOfGearsCell (v : Option String) : Option String :=
  v.bind (fun s => (reSplitDigits s)[1]?)

/-- Join the two derived transmission columns onto the frame, as the
`final_df.join(final_df["transmission_"].str.split(...))` step. -/
def joinTransmission (df : DataFrame) : DataFrame :=
  ⟨df.columns ++ ["transmission_type", "number_of_gears"],
   df.rows.map (fun r =>
     r ++ [transmissionTypeCell (getCell df.columns r "transmission_"),
           numberOfGearsCell (getCell df.columns r "transmission_")])⟩

/-- `read_and_clean_df`: normalize columns, drop duplicate rows, clean
the make, model and vehicle class text fields, and split the
transmission code into type and gear count. -/
def read_and_clean_df (df : DataFrame) : DataFrame :=
  joinTransmission
    (mapCol
      (mapCol
        (mapCol
          (mapCol (dedupedFrame df) "make_"
            (Option.map (fun s => strStrip (strLower s))))
          "model.1_" (Option.map strLower))
        "vehicleclass_" (Option.map strLower))
      "vehicleclass_" (Option.map strReplaceColon))

/-- The drivetrain keyword table `model_dict`, in source order.  The
final value reproduces the Python line continuations, which keep the
indentation of the continued lines inside the string. -/
def model_dict : List (String × String) :=
  [("4wd/4X4", "Four-wheel drive"),
   ("awd", "All-wheel drive"),
   ("ffv", "Flexible-fuel vehicle"),
   ("swb", "Short wheelbase"),
   ("lwb", "Long wheelbase"),
   ("ewb", "Extended wheelbase"),
   ("cng", "Compressed natural gas"),
   ("ngv", "Natural gas vehicle"),
   ("#", "High output engine that             provides more power than the standard             engine of the same size")]

/-- `convert_model_key_words`: scan the keyword table in order and
return the label of the first keyword occurring in the text, defaulting
to `unspecified` (the loop with `break` of the source). -/
def convert_model_key_words (s : String) (d : List (String × String)) : String :=
  match d with
  | [] => "unspecified"
  | kv :: rest =>
    if occursIn kv.1.data s.data then kv.2 else convert_model_key_words s rest

/-- Reindex a row of a source frame to the output column order of the
concatenation, filling columns absent from the source with null. -/
def reindexRow (order : List String) (cols : List String) (r : List (Option String)) : List (Option String) :=
  order.map (fun c => getCell cols r c)

/-- `concatenate_dataframes`: the output columns are an enumeration of
the union of the three column sets (the enumeration order of the Python
set is passed explicitly), and the rows of the three frames are stacked
in order, reindexed to the output columns. -/
def concatenate_dataframes (order : List String) (d1 d2 d3 : DataFrame) : DataFrame :=
  ⟨order,
   d1.rows.map (reindexRow order d1.columns) ++
   d2.rows.map (reindexRow order d2.columns) ++
   d3.rows.map (reindexRow order d3.columns)⟩

/-- The order parameter is a legal enumeration of the set
`set.union(set(df1.columns), set(df2.columns), set(df3.columns))`:
no repetitions, and membership is exactly the union. -/
def validOrder (order : List String) (d1 d2 d3 : DataFrame) : Prop :=
  order.Nodup ∧
  (∀ c ∈ order, c ∈ d1.columns ∨ c ∈ d2.columns ∨ c ∈ d3.columns) ∧
  (∀ c ∈ d1.columns, c ∈ order) ∧
  (∀ c ∈ d2.columns, c ∈ order) ∧
  (∀ c ∈ d3.columns, c ∈ order)

/-- Value of the concatenated table at a row index and a column label. -/
def cellAt (df : DataFrame) (i : Nat) (c : String) : Option String :=
  (df.rows[i]?).bind (fun r => getCell df.columns r c)

/-- `final_df["id"] = range(1, len(final_df) + 1)`: the reshaped rows
paired with their sequential integer identity. -/
def addId (rows : List (List (Option String))) : List (Nat × List (Option String)) :=
  (List.range' 1 rows.length).zip rows

/-- Network outcomes of the catalog API call in
`fuel_consumption_metadata_extraction`: either a completed response
with a status code, a content type and the decoded resource list
(language, name, url), or one of the caught request exceptions. -/
inductive NetOutcome where
  | response (status : Nat) (contentType : String) (resources : List (String × String × String))
  | httpError
  | connectionError
  | timeoutError
  | requestException
deriving DecidableEq

/-- Result of the Metadata Fetcher: a process exit, a (name, url) table,
or no result (an exception was printed and swallowed). -/
inductive FetchResult where
  | exitCode (n : Nat)
  | table (pairs : List (String × String))
  | noResult
deriving DecidableEq

/-- `fuel_consumption_metadata_extraction`: on a 200 response whose
content type mentions `application/json`, keep the English resources as
(name, url) pairs; on any other response print and `sys.exit(1)`; the
four `requests` exception handlers print and return nothing. -/
def fuel_consumption_metadata_extraction (o : NetOutcome) : FetchResult :=
  match o with
  | NetOutcome.response st ct rs =>
    if st = 200 ∧ occursIn ("application/json".data) ct.data = true then
      FetchResult.table ((rs.filter (fun r => r.1 == "en")).map (fun r => (r.2.1, r.2.2)))
    else
      FetchResult.exitCode 1
  | NetOutcome.httpError => FetchResult.noResult
  | NetOutcome.connectionError => FetchResult.noResult
  | NetOutcome.timeoutError => FetchResult.noResult
  | NetOutcome.requestException => FetchResult.noResult

/-- Order-independent description of one cell of the concatenated
table: the row index selects the source frame (first, second, third
block) and the cell is read off under the source columns. -/
def unifiedCell (d1 d2 d3 : DataFrame) (i : Nat) (c : String) : Option String :=
  match d1.rows[i]? with
  | some r => getCell d1.columns r c
  | none =>
    match d2.rows[i - d1.rows.length]? with
    | some r => getCell d2.columns r c
    | none =>
      match d3.rows[i - d1.rows.length - d2.rows.length]? with
      | some r => getCell d3.columns r c
      | none => none

/-- The cleaning applied to one piece (section label or field value) of
a synthesized column name: lowercase, delete stars and spaces, delete
the footnote token. -/
def pieceClean (s : String) : List Char :=
  removeTok (((s.data.map lowerChar).filter (fun c => c != '*')).filter (fun c => c != ' '))

/-- A name piece of a supported input: its whitespace is only the plain
space character, and its cleaned form does not contain `unnamed`. -/
def pieceOK (s : String) : Prop :=
  (∀ c ∈ s.data, c.isWhitespace = true → c = ' ') ∧
  occursIn unnamedChars (pieceClean s) = false

/-- A supported input table for the Column Normalizer: every header
piece and every cell of the first surviving row is a supported piece. -/
def supportedPieces (df : DataFrame) : Prop :=
  (∀ a ∈ cleanedCols df, pieceOK a) ∧ (∀ b ∈ strFirstRow df, pieceOK b)

/-- A machine-usable column name: no whitespace, no star, and no
occurrence of the substring `unnamed`. -/
def cleanName (n : String) : Prop :=
  (∀ c ∈ n.data, c.isWhitespace = false ∧ c ≠ '*') ∧
  occursIn unnamedChars n.data = false

instance (s : String) : Decidable (pieceOK s) := by
  unfold pieceOK
  infer_instance

instance (df : DataFrame) : Decidable (supportedPieces df) := by
  unfold supportedPieces
  infer_instance

instance (n : String) : Decidable (cleanName n) := by
  unfold cleanName
  infer_instance

instance (order : List String) (d1 d2 d3 : DataFrame) : Decidable (validOrder order d1 d2 d3) := by
  unfold validOrder
  infer_instance

/-- Concrete supported table used to instantiate the normalizer name
cleanliness theorem. -/
def wdf2 : DataFrame :=
  ⟨["Model", "Unnamed: 1", "Make*"],
   [[some "Year", some "City (L/100 km)", some "#"],
    [some "acura", some "9.9", some "x"]]⟩

/-- Concrete supported table used to instantiate the normalizer frame
preservation theorem. -/
def wdf6 : DataFrame :=
  ⟨["Model", "Unnamed: 1", "Cc"],
   [[some "Year", some "City (L/100 km)", some "#"],
    [some "acura", some "9.9", some "x"]]⟩

/-- Concrete frames used to instantiate the concatenation theorem. -/
def wc1 : DataFrame := ⟨["a"], [[some "1"]]⟩

/-- Second concrete frame for the concatenation theorem. -/
def wc2 : DataFrame := ⟨["b"], [[some "2"]]⟩

/-- Third concrete frame for the concatenation theorem. -/
def wc3 : DataFrame := ⟨["b"], []⟩

/-- Concrete frames used to instantiate the rerun comparison theorem. -/
def we1 : DataFrame := ⟨["a"], [[some "1"]]⟩

/-- Second concrete frame for the rerun comparison theorem. -/
def we2 : DataFrame := ⟨["b"], [[some "2"]]⟩

/-- Third concrete frame for the rerun comparison theorem. -/
def we3 : DataFrame := ⟨[], []⟩

/-- Concrete raw table whose model field keeps its surrounding blanks
through `read_and_clean_df`. -/
def wdf9 : DataFrame :=
  ⟨["Make", "Model.1", "VehicleClass", "Transmission", "Aa", "Bb", "Cc"],
   [[none, none, none, none, some "p", some "q", some "r"],
    [some "HONDA ", some " Y ", some "a:b", some "AS10", some "1", some "2", some "3"]]⟩

/-! ### Lemmas about the keyword scan -/

/-- Claim C3: against the specified example, keyword decoding of the
lowercased model text `suv 4wd/4x4` does not produce `Four-wheel drive`:
the table key `4wd/4X4` contains an uppercase letter, while the pipeline
lowercases the model field before the scan, so the key never matches and
the scan falls through to `unspecified`.  The uppercase variant of the
text, which the pipeline never produces, would match. -/
theorem drivetrain_keyword_mismatch_eval :
    convert_model_key_words "suv 4wd/4x4" model_dict = "unspecified" ∧
    convert_model_key_words "suv 4wd/4X4" model_dict = "Four-wheel drive" := by
  constructor
  · decide
  · decide

/-- Claim C4: keyword decoding returns the label of the first keyword of
the table (in iteration order) occurring as a substring of the text, and
returns `unspecified` when no keyword occurs. -/
theorem keyword_decoding_first_match_wins (s : String) (d : List (String × String)) :
    (∃ (i : Nat) (kv : String × String), d[i]? = some kv ∧ occursIn kv.1.data s.data = true ∧
      convert_model_key_words s d = kv.2 ∧
      ∀ j, j < i → ∀ kv2 : String × String, d[j]? = some kv2 → occursIn kv2.1.data s.data = false) ∨
    ((∀ kv ∈ d, occursIn kv.1.data s.data = false) ∧
      convert_model_key_words s d = "unspecified") := by
  induction d with
  | nil =>
    right
    constructor
    · intro kv hkv
      simp at hkv
    · rfl
  | cons kv rest ih =>
    by_cases h : occursIn kv.1.data s.data = true
    · left
      refine ⟨0, kv, by simp, h, ?_, ?_⟩
      · simp [convert_model_key_words, h]
      · intro j hj
        exact absurd hj (Nat.not_lt_zero j)
    · have hfalse : occursIn kv.1.data s.data = false := by
        revert h
        cases occursIn kv.1.data s.data
        · intro _
          rfl
        · intro h
          exact absurd rfl h
      rcases ih with ⟨i, kv2, hi, hocc, heq, hmin⟩ | ⟨hall, heq⟩
      · left
        refine ⟨i + 1, kv2, by simpa using hi, hocc, ?_, ?_⟩
        · simpa [convert_model_key_words, hfalse] using heq
        · intro j hj kv3 hj3
          cases j with
          | zero =>
            have he : kv = kv3 := by simpa using hj3
            rw [← he]
            exact hfalse
          | succ j2 =>
            exact hmin j2 (Nat.lt_of_succ_lt_succ hj) kv3 (by simpa using hj3)
      · right
        constructor
        · intro kv3 hkv3
          rcases List.mem_cons.1 hkv3 with h3 | h3
          · rw [h3]
            exact hfalse
          · exact hall kv3 h3
        · simpa [convert_model_key_words, hfalse] using heq

/-! ### The Metadata Fetcher -/

/-- Claim C7: the Metadata Fetcher exits with status 1 on every
completed catalog response that is not a 200 response with a JSON
content type, while the four caught network exceptions produce no
result and raise nothing. -/
theorem metadata_fetcher_exit_and_catch (o : NetOutcome) :
    (∀ st ct rs, o = NetOutcome.response st ct rs →
      ¬ (st = 200 ∧ occursIn ("application/json".data) ct.data = true) →
      fuel_consumption_metadata_extraction o = FetchResult.exitCode 1) ∧
    ((o = NetOutcome.httpError ∨ o = NetOutcome.connectionError ∨
      o = NetOutcome.timeoutError ∨ o = NetOutcome.requestException) →
      fuel_consumption_metadata_extraction o = FetchResult.noResult) := by
  constructor
  · intro st ct rs ho hbad
    subst ho
    simp only [fuel_consumption_metadata_extraction, if_neg hbad]
  · intro ho
    rcases ho with h | h | h | h <;> subst h <;> rfl

/-- Witness for the fetcher theorem: a 500 HTML response exits with
status 1, and a timeout is swallowed with no result. -/
theorem metadata_fetcher_exit_and_catch_witness :
    fuel_consumption_metadata_extraction (NetOutcome.response 500 "text/html" []) = FetchResult.exitCode 1 ∧
    fuel_consumption_metadata_extraction NetOutcome.timeoutError = FetchResult.noResult := by
  constructor
  · exact (metadata_fetcher_exit_and_catch (NetOutcome.response 500 "text/html" [])).1
      500 "text/html" [] rfl (by decide)
  · exact (metadata_fetcher_exit_and_catch NetOutcome.timeoutError).2
      (Or.inr (Or.inr (Or.inl rfl)))

/-! ### Lemmas about the regex split of transmission codes -/

/-- Every chunk produced by `chunkify` is a nonempty run whose
characters all agree with the digit tag of the chunk. -/
theorem chunkify_runs (cs : List Char) :
    ∀ p ∈ chunkify cs, p.2 ≠ [] ∧ ∀ c ∈ p.2, c.isDigit = p.1 := by
  induction cs with
  | nil =>
    intro p hp
    simp [chunkify] at hp
  | cons c rest ih =>
    intro p hp
    rcases hch : chunkify rest with _ | ⟨⟨b, g⟩, t⟩
    · have hcc : chunkify (c :: rest) = [(c.isDigit, [c])] := by
        rw [chunkify, hch]
      rw [hcc] at hp
      simp at hp
      rw [hp]
      refine ⟨by simp, ?_⟩
      intro x hx
      simp at hx
      rw [hx]
    · have hcc : chunkify (c :: rest) =
          if c.isDigit = b then (b, c :: g) :: t
          else (c.isDigit, [c]) :: (b, g) :: t := by
        rw [chunkify, hch]
      rw [hcc] at hp
      by_cases hb : c.isDigit = b
      · rw [if_pos hb] at hp
        rcases List.mem_cons.1 hp with h1 | h1
        · rw [h1]
          have hbg : (b, g) ∈ chunkify rest := by
            rw [hch]
            exact List.mem_cons_self _ _
          have := ih (b, g) hbg
          refine ⟨by simp, ?_⟩
          intro x hx
          rcases List.mem_cons.1 hx with h2 | h2
          · rw [h2, hb]
          · exact this.2 x h2
        · exact ih p (by rw [hch]; exact List.mem_cons_of_mem _ h1)
      · rw [if_neg hb] at hp
        rcases List.mem_cons.1 hp with h1 | h1
        · rw [h1]
          refine ⟨by simp, ?_⟩
          intro x hx
          simp at hx
          rw [hx]
        · exact ih p (by rw [hch]; exact h1)

/-- Adjacent chunks produced by `chunkify` carry different digit tags. -/
theorem chunkify_alternates (cs : List Char) :
    List.Chain' (fun p q : Bool × List Char => p.1 ≠ q.1) (chunkify cs) := by
  induction cs with
  | nil => simp [chunkify]
  | cons c rest ih =>
    rcases hch : chunkify rest with _ | ⟨⟨b, g⟩, t⟩
    · have hcc : chunkify (c :: rest) = [(c.isDigit, [c])] := by
        rw [chunkify, hch]
      rw [hcc]
      simp
    · have hcc : chunkify (c :: rest) =
          if c.isDigit = b then (b, c :: g) :: t
          else (c.isDigit, [c]) :: (b, g) :: t := by
        rw [chunkify, hch]
      rw [hcc]
      rw [hch] at ih
      by_cases hb : c.isDigit = b
      · rw [if_pos hb]
        rw [List.chain'_cons'] at ih ⊢
        exact ⟨ih.1, ih.2⟩
      · rw [if_neg hb]
        rw [List.chain'_cons]
        exact ⟨hb, ih⟩

/-- `assemble` never returns the empty list. -/
theorem assemble_ne_nil (ch : List (Bool × List Char)) : assemble ch ≠ [] := by
  match ch with
  | [] => simp [assemble]
  | (true, g) :: rest => simp [assemble]
  | (false, t) :: rest =>
    rw [assemble]
    rcases h : assemble rest with _ | ⟨h1, tl⟩
    · simp
    · simp

/-- Under the chunk invariants, the element at index 1 of the assembled
split, when present, is a nonempty digit run. -/
theorem assemble_idx1_digits (ch : List (Bool × List Char))
    (hall : ∀ p ∈ ch, p.2 ≠ [] ∧ ∀ c ∈ p.2, c.isDigit = p.1)
    (halt : List.Chain' (fun p q : Bool × List Char => p.1 ≠ q.1) ch) :
    ∀ g, (assemble ch)[1]? = some g → g ≠ [] ∧ ∀ c ∈ g, c.isDigit = true := by
  intro g hg
  match ch with
  | [] =>
    simp [assemble] at hg
  | (true, gr) :: rest =>
    rw [assemble] at hg
    simp at hg
    have := hall (true, gr) (List.mem_cons_self _ _)
    rw [← hg]
    exact ⟨this.1, this.2⟩
  | (false, t) :: [] =>
    simp [assemble] at hg
  | (false, t) :: (true, gr) :: rest =>
    rw [assemble] at hg
    have h2 : assemble ((true, gr) :: rest) = [] :: gr :: assemble rest := by
      rw [assemble]
    rw [h2] at hg
    simp at hg
    have := hall (true, gr) (List.mem_cons_of_mem _ (List.mem_cons_self _ _))
    rw [← hg]
    exact ⟨this.1, this.2⟩
  | (false, t) :: (false, t2) :: rest =>
    rw [List.chain'_cons] at halt
    exact absurd rfl halt.1

/-- A successful assoc-list lookup returns one of the table values. -/
theorem lookupAssoc_mem_values (d : List (String × String)) (s v : String)
    (h : lookupAssoc d s = some v) : ∃ p ∈ d, p.2 = v := by
  induction d with
  | nil => simp [lookupAssoc] at h
  | cons kv rest ih =>
    rw [lookupAssoc] at h
    by_cases hk : kv.1 = s
    · rw [if_pos hk] at h
      exact ⟨kv, List.mem_cons_self _ _, by injection h⟩
    · rw [if_neg hk] at h
      rcases ih h with ⟨p, hp, hv⟩
      exact ⟨p, List.mem_cons_of_mem _ hp, hv⟩

/-- Claim C5: after the transmission split, every `transmission_type`
cell is null or one of the values of the transmission lookup table, and
every `number_of_gears` cell is null or a nonempty string of digits. -/
theorem transmission_split_value_ranges (v : Option String) :
    (transmissionTypeCell v = none ∨
      ∃ p ∈ transmission_dict, transmissionTypeCell v = some p.2) ∧
    (∀ g, numberOfGearsCell v = some g →
      g.data.isEmpty = false ∧ g.data.all Char.isDigit = true) := by
  constructor
  · rcases h : transmissionTypeCell v with _ | t
    · exact Or.inl rfl
    · right
      have h2 := h
      rw [transmissionTypeCell] at h2
      rcases Option.bind_eq_some.1 h2 with ⟨raw, hraw, hlook⟩
      rcases lookupAssoc_mem_values transmission_dict raw t hlook with ⟨p, hp, hv⟩
      exact ⟨p, hp, by rw [hv]⟩
  · intro g hg
    rw [numberOfGearsCell] at hg
    rcases Option.bind_eq_some.1 hg with ⟨s, hs, hsplit⟩
    rw [reSplitDigits] at hsplit
    rw [List.getElem?_map] at hsplit
    rcases hidx : (assemble (chunkify s.data))[1]? with _ | gl
    · rw [hidx] at hsplit
      simp at hsplit
    · rw [hidx] at hsplit
      simp at hsplit
      have hprops := assemble_idx1_digits (chunkify s.data)
        (chunkify_runs s.data) (chunkify_alternates s.data) gl hidx
      constructor
      · rw [← hsplit]
        rcases gl with _ | ⟨c0, gl0⟩
        · exact absurd rfl hprops.1
        · rfl
      · rw [← hsplit]
        have : (String.mk gl).data = gl := rfl
        rw [List.all_eq_true]
        intro c hc
        exact hprops.2 c (by simpa using hc)

/-- Witness for the transmission split theorem, at the raw code `AS10`:
the gear group is the nonempty digit string `10`. -/
theorem transmission_split_value_ranges_witness :
    numberOfGearsCell (some "AS10") = some "10" ∧
    ("10".data.isEmpty = false ∧ "10".data.all Char.isDigit = true) := by
  constructor
  · decide
  · exact (transmission_split_value_ranges (some "AS10")).2 "10" (by decide)

/-! ### Lemmas about the Union Concatenator -/

/-- Reading a reindexed row under the output order recovers the source
cell for present columns and null for absent ones. -/
theorem getCell_map_order (o : List String) (f : String → Option String) (c : String) :
    getCell o (o.map f) c = if c ∈ o then f c else none := by
  induction o with
  | nil => simp [getCell]
  | cons k ks ih =>
    by_cases hk : k = c
    · subst hk
      simp [getCell]
    · rw [List.map_cons]
      rw [getCell]
      rw [if_neg hk, ih]
      by_cases hm : c ∈ ks
      · rw [if_pos hm, if_pos (List.mem_cons_of_mem _ hm)]
      · rw [if_neg hm, if_neg ?_]
        intro hin
        rcases List.mem_cons.1 hin with h1 | h1
        · exact hk h1.symm
        · exact hm h1

/-- Reading an absent column yields null. -/
theorem getCell_not_mem (cols : List String) (r : List (Option String)) (c : String)
    (h : c ∉ cols) : getCell cols r c = none := by
  induction cols generalizing r with
  | nil => rfl
  | cons k ks ih =>
    rcases r with _ | ⟨v, vs⟩
    · rfl
    · rw [getCell]
      rw [if_neg (fun hk => h (by rw [hk]; exact List.mem_cons_self _ _))]
      exact ih vs (fun hc => h (List.mem_cons_of_mem _ hc))

/-- The first block of the concatenated rows: each row of the first
frame appears at its own index, reindexed to the output order. -/
theorem concat_rows_first (o : List String) (d1 d2 d3 : DataFrame) (i : Nat)
    (r : List (Option String)) (h : d1.rows[i]? = some r) :
    (concatenate_dataframes o d1 d2 d3).rows[i]? = some (reindexRow o d1.columns r) := by
  have hi : i < d1.rows.length := (List.getElem?_eq_some_iff.1 h).1
  rw [concatenate_dataframes]
  rw [List.getElem?_append_left (by simp [Nat.lt_of_lt_of_le hi (Nat.le_add_right _ _)])]
  rw [List.getElem?_append_left (by simpa using hi)]
  rw [List.getElem?_map, h]
  rfl

/-- The second block of the concatenated rows, shifted by the length of
the first frame. -/
theorem concat_rows_second (o : List String) (d1 d2 d3 : DataFrame) (i : Nat)
    (r : List (Option String)) (h : d2.rows[i]? = some r) :
    (concatenate_dataframes o d1 d2 d3).rows[d1.rows.length + i]? =
      some (reindexRow o d2.columns r) := by
  have hi : i < d2.rows.length := (List.getElem?_eq_some_iff.1 h).1
  rw [concatenate_dataframes]
  rw [List.getElem?_append_left (by simp [Nat.add_lt_add_left hi])]
  rw [List.getElem?_append_right (by simp)]
  have : d1.rows.length + i - (d1.rows.map (reindexRow o d1.columns)).length = i := by
    simp
  rw [this, List.getElem?_map, h]
  rfl

/-- The third block of the concatenated rows, shifted by the lengths of
the first two frames. -/
theorem concat_rows_third (o : List String) (d1 d2 d3 : DataFrame) (i : Nat)
    (r : List (Option String)) (h : d3.rows[i]? = some r) :
    (concatenate_dataframes o d1 d2 d3).rows[d1.rows.length + d2.rows.length + i]? =
      some (reindexRow o d3.columns r) := by
  rw [concatenate_dataframes]
  rw [List.getElem?_append_right (by simp [Nat.le_add_right])]
  have : d1.rows.length + d2.rows.length + i -
      ((d1.rows.map (reindexRow o d1.columns)).length +
       (d2.rows.map (reindexRow o d2.columns)).length) = i := by
    simp
  rw [List.length_append, this, List.getElem?_map, h]
  rfl

/-- Any legal enumeration of the union set has the union as its list
`toFinset`. -/
theorem order_toFinset (o : List String) (d1 d2 d3 : DataFrame)
    (h : validOrder o d1 d2 d3) :
    o.toFinset = d1.columns.toFinset ∪ d2.columns.toFinset ∪ d3.columns.toFinset := by
  apply Finset.ext
  intro c
  simp only [List.mem_toFinset, Finset.mem_union]
  constructor
  · intro hc
    rcases h.2.1 c hc with h1 | h1 | h1
    · exact Or.inl (Or.inl h1)
    · exact Or.inl (Or.inr h1)
    · exact Or.inr h1
  · intro hc
    rcases hc with (h1 | h1) | h1
    · exact h.2.2.1 c h1
    · exact h.2.2.2.1 c h1
    · exact h.2.2.2.2 c h1

/-- Claim C1: for any legal enumeration of the column union, the output
of the Union Concatenator has as many rows as the three inputs together,
its column set is the union of the three input column sets (and its
column count the size of that union), and every input row reappears at
its block position, reindexed to the output order with nulls for absent
columns: no row is dropped or duplicated. -/
theorem union_concat_preserves_rows_and_columns (o : List String) (d1 d2 d3 : DataFrame)
    (h : validOrder o d1 d2 d3) :
    (concatenate_dataframes o d1 d2 d3).rows.length =
      d1.rows.length + d2.rows.length + d3.rows.length ∧
    (concatenate_dataframes o d1 d2 d3).columns.toFinset =
      d1.columns.toFinset ∪ d2.columns.toFinset ∪ d3.columns.toFinset ∧
    (concatenate_dataframes o d1 d2 d3).columns.length =
      (d1.columns.toFinset ∪ d2.columns.toFinset ∪ d3.columns.toFinset).card ∧
    (∀ (i : Nat) (r : List (Option String)), d1.rows[i]? = some r →
      (concatenate_dataframes o d1 d2 d3).rows[i]? = some (reindexRow o d1.columns r)) ∧
    (∀ (i : Nat) (r : List (Option String)), d2.rows[i]? = some r →
      (concatenate_dataframes o d1 d2 d3).rows[d1.rows.length + i]? =
        some (reindexRow o d2.columns r)) ∧
    (∀ (i : Nat) (r : List (Option String)), d3.rows[i]? = some r →
      (concatenate_dataframes o d1 d2 d3).rows[d1.rows.length + d2.rows.length + i]? =
        some (reindexRow o d3.columns r)) := by
  refine ⟨?_, order_toFinset o d1 d2 d3 h, ?_, ?_, ?_, ?_⟩
  · simp [concatenate_dataframes, Nat.add_assoc]
  · rw [show (concatenate_dataframes o d1 d2 d3).columns = o from rfl]
    rw [← order_toFinset o d1 d2 d3 h]
    exact (List.toFinset_card_of_nodup h.1).symm
  · exact fun i r hr => concat_rows_first o d1 d2 d3 i r hr
  · exact fun i r hr => concat_rows_second o d1 d2 d3 i r hr
  · exact fun i r hr => concat_rows_third o d1 d2 d3 i r hr

/-- Witness for the concatenation theorem on three small frames. -/
theorem union_concat_preserves_rows_and_columns_witness :
    validOrder ["a", "b"] wc1 wc2 wc3 ∧
    (concatenate_dataframes ["a", "b"] wc1 wc2 wc3).rows.length =
      wc1.rows.length + wc2.rows.length + wc3.rows.length := by
  constructor
  · decide
  · exact (union_concat_preserves_rows_and_columns ["a", "b"] wc1 wc2 wc3 (by decide)).1

/-! ### Rerun comparison of the Union Concatenator -/

/-- The output of the Union Concatenator is not independent of the
enumeration order of the Python column-name set: two legal enumerations
of the same union produce tables that are not byte-identical (the column
order differs), so a rerun of the pipeline is not guaranteed to persist
a byte-identical unified table. -/
theorem pipeline_rerun_not_byte_identical :
    validOrder ["a", "b"] we1 we2 we3 ∧
    validOrder ["b", "a"] we1 we2 we3 ∧
    concatenate_dataframes ["a", "b"] we1 we2 we3 ≠
      concatenate_dataframes ["b", "a"] we1 we2 we3 := by
  refine ⟨by decide, by decide, by decide⟩

/-- The concatenated cell at any index and label agrees with the
order-independent description `unifiedCell`. -/
theorem cellAt_concat (o : List String) (d1 d2 d3 : DataFrame)
    (h : validOrder o d1 d2 d3) (i : Nat) (c : String) :
    cellAt (concatenate_dataframes o d1 d2 d3) i c = unifiedCell d1 d2 d3 i c := by
  have habsent : ∀ d : DataFrame, (∀ x ∈ d.columns, x ∈ o) →
      ∀ r, getCell o (reindexRow o d.columns r) c =
        getCell d.columns r c := by
    intro d hsub r
    rw [show reindexRow o d.columns r = o.map (fun cc => getCell d.columns r cc) from rfl]
    rw [getCell_map_order]
    by_cases hc : c ∈ o
    · rw [if_pos hc]
    · rw [if_neg hc]
      exact (getCell_not_mem d.columns r c (fun hmem => hc (hsub c hmem))).symm
  rcases h1 : d1.rows[i]? with _ | r1
  · have hge1 : d1.rows.length ≤ i := List.getElem?_eq_none_iff.1 h1
    rcases h2 : d2.rows[i - d1.rows.length]? with _ | r2
    · have hge2 : d2.rows.length ≤ i - d1.rows.length := List.getElem?_eq_none_iff.1 h2
      rcases h3 : d3.rows[i - d1.rows.length - d2.rows.length]? with _ | r3
      · have hge3 : d3.rows.length ≤ i - d1.rows.length - d2.rows.length :=
          List.getElem?_eq_none_iff.1 h3
        have hnone : (concatenate_dataframes o d1 d2 d3).rows[i]? = none := by
          rw [List.getElem?_eq_none_iff]
          simp [concatenate_dataframes]
          omega
        rw [cellAt, hnone]
        rw [unifiedCell, h1, h2, h3]
        rfl
      · have hrow : (concatenate_dataframes o d1 d2 d3).rows[i]? =
            some (reindexRow o d3.columns r3) := by
          have hidx : i = d1.rows.length + d2.rows.length +
              (i - d1.rows.length - d2.rows.length) := by omega
          rw [hidx]
          exact concat_rows_third o d1 d2 d3 _ r3 h3
        rw [cellAt, hrow]
        rw [unifiedCell, h1, h2, h3]
        exact habsent d3 h.2.2.2.2 r3
    · have hrow : (concatenate_dataframes o d1 d2 d3).rows[i]? =
          some (reindexRow o d2.columns r2) := by
        have hidx : i = d1.rows.length + (i - d1.rows.length) := by omega
        rw [hidx]
        exact concat_rows_second o d1 d2 d3 _ r2 h2
      rw [cellAt, hrow]
      rw [unifiedCell, h1, h2]
      exact habsent d2 h.2.2.2.1 r2
  · rw [cellAt, concat_rows_first o d1 d2 d3 i r1 h1]
    rw [unifiedCell, h1]
    exact habsent d1 h.2.2.1 r1

/-- Claim C8 (amended): two runs of the Union Concatenator over the
same three input frames, under possibly different enumerations of the
column-name set, produce tables with the same row count, the same
column set, and the same cell value at every row index and column
label; only the column order may differ between runs. -/
theorem pipeline_rerun_identical_up_to_column_order
    (o1 o2 : List String) (d1 d2 d3 : DataFrame)
    (h1 : validOrder o1 d1 d2 d3) (h2 : validOrder o2 d1 d2 d3) :
    (concatenate_dataframes o1 d1 d2 d3).rows.length =
      (concatenate_dataframes o2 d1 d2 d3).rows.length ∧
    (concatenate_dataframes o1 d1 d2 d3).columns.toFinset =
      (concatenate_dataframes o2 d1 d2 d3).columns.toFinset ∧
    ∀ i c, cellAt (concatenate_dataframes o1 d1 d2 d3) i c =
      cellAt (concatenate_dataframes o2 d1 d2 d3) i c := by
  refine ⟨?_, ?_, ?_⟩
  · simp [concatenate_dataframes]
  · rw [show (concatenate_dataframes o1 d1 d2 d3).columns = o1 from rfl]
    rw [show (concatenate_dataframes o2 d1 d2 d3).columns = o2 from rfl]
    rw [order_toFinset o1 d1 d2 d3 h1, order_toFinset o2 d1 d2 d3 h2]
  · intro i c
    rw [cellAt_concat o1 d1 d2 d3 h1 i c, cellAt_concat o2 d1 d2 d3 h2 i c]

/-- Witness for the rerun comparison theorem on two enumeration orders
of the same union. -/
theorem pipeline_rerun_identical_up_to_column_order_witness :
    validOrder ["a", "b"] we1 we2 we3 ∧
    validOrder ["b", "a"] we1 we2 we3 ∧
    (concatenate_dataframes ["a", "b"] we1 we2 we3).rows.length =
      (concatenate_dataframes ["b", "a"] we1 we2 we3).rows.length := by
  refine ⟨by decide, by decide, ?_⟩
  exact (pipeline_rerun_identical_up_to_column_order ["a", "b"] ["b", "a"]
    we1 we2 we3 (by decide) (by decide)).1

/-! ### Lemmas about the Column Normalizer -/

/-- A successful match is no longer than the text it matches. -/
theorem startsWith_length (t l : List Char) (h : startsWith t l = true) :
    t.length ≤ l.length := by
  induction t generalizing l with
  | nil => simp
  | cons p ps ih =>
    rcases l with _ | ⟨c, cs⟩
    · simp [startsWith] at h
    · rw [startsWith] at h
      rw [Bool.and_eq_true] at h
      rcases h with ⟨_, h2⟩
      simpa using Nat.succ_le_succ (ih cs h2)

/-- A pattern without underscore matches at the start of `X ++ '_' :: Y`
exactly when it matches at the start of `X`: the separator blocks any
match from crossing it. -/
theorem startsWith_append_sep (t X Y : List Char) (h : '_' ∉ t) :
    startsWith t (X ++ '_' :: Y) = startsWith t X := by
  induction t generalizing X with
  | nil => simp [startsWith]
  | cons p ps ih =>
    rcases X with _ | ⟨x, X2⟩
    · have hp : p ≠ '_' := fun hh => h (by rw [hh]; exact List.mem_cons_self _ _)
      rw [List.nil_append]
      rw [show startsWith (p :: ps) ('_' :: Y) = ((p == '_') && startsWith ps Y) from rfl]
      rw [show startsWith (p :: ps) [] = false from rfl]
      simp [hp]
    · rw [List.cons_append]
      rw [show startsWith (p :: ps) (x :: (X2 ++ '_' :: Y)) =
        ((p == x) && startsWith ps (X2 ++ '_' :: Y)) from rfl]
      rw [show startsWith (p :: ps) (x :: X2) = ((p == x) && startsWith ps X2) from rfl]
      rw [ih X2 (fun hh => h (List.mem_cons_of_mem _ hh))]

/-- A nonempty pattern without underscore occurs in `u ++ '_' :: v`
exactly when it occurs in `u` or in `v`. -/
theorem occursIn_append_sep (pat u v : List Char) (hne : pat ≠ []) (hnu : '_' ∉ pat) :
    occursIn pat (u ++ '_' :: v) = (occursIn pat u || occursIn pat v) := by
  induction u with
  | nil =>
    rw [List.nil_append]
    rw [show occursIn pat ('_' :: v) =
      (startsWith pat ('_' :: v) || occursIn pat v) from rfl]
    have hsw : startsWith pat ('_' :: v) = false := by
      have := startsWith_append_sep pat [] v hnu
      rw [List.nil_append] at this
      rw [this]
      rcases pat with _ | ⟨p, ps⟩
      · exact absurd rfl hne
      · rfl
    rw [hsw]
    rw [show occursIn pat [] = pat.isEmpty from rfl]
    rcases pat with _ | ⟨p, ps⟩
    · exact absurd rfl hne
    · simp
  | cons c u2 ih =>
    rw [List.cons_append]
    rw [show occursIn pat (c :: (u2 ++ '_' :: v)) =
      (startsWith pat (c :: (u2 ++ '_' :: v)) || occursIn pat (u2 ++ '_' :: v)) from rfl]
    rw [show occursIn pat (c :: u2) =
      (startsWith pat (c :: u2) || occursIn pat u2) from rfl]
    rw [show (c :: (u2 ++ '_' :: v)) = ((c :: u2) ++ '_' :: v) from rfl]
    rw [startsWith_append_sep pat (c :: u2) v hnu, ih, Bool.or_assoc]

/-- Skipping with the counter is dropping. -/
theorem removeTokAux_skip (k : Nat) (l : List Char) :
    removeTokAux k l = removeTokAux 0 (l.drop k) := by
  induction k generalizing l with
  | zero => rw [List.drop_zero]
  | succ k2 ih =>
    rcases l with _ | ⟨c, cs⟩
    · rw [show removeTokAux (k2 + 1) [] = [] from rfl]
      rw [List.drop_nil]
      rfl
    · rw [show removeTokAux (k2 + 1) (c :: cs) = removeTokAux k2 cs from rfl]
      rw [List.drop_succ_cons]
      exact ih cs

/-- Token removal only deletes characters. -/
theorem removeTok_subset (l : List Char) :
    ∀ k c, c ∈ removeTokAux k l → c ∈ l := by
  induction l with
  | nil =>
    intro k c hc
    rcases k with _ | k2
    · simp [removeTokAux] at hc
    · simp [removeTokAux] at hc
  | cons c0 cs ih =>
    intro k c hc
    rcases k with _ | k2
    · rw [show removeTokAux 0 (c0 :: cs) =
        (if startsWith tokChars (c0 :: cs) then removeTokAux 17 cs
         else c0 :: removeTokAux 0 cs) from rfl] at hc
      by_cases hs : startsWith tokChars (c0 :: cs) = true
      · rw [if_pos hs] at hc
        exact List.mem_cons_of_mem _ (ih 17 c hc)
      · rw [if_neg hs] at hc
        rcases List.mem_cons.1 hc with h1 | h1
        · rw [h1]
          exact List.mem_cons_self _ _
        · exact List.mem_cons_of_mem _ (ih 0 c h1)
    · rw [show removeTokAux (k2 + 1) (c0 :: cs) = removeTokAux k2 cs from rfl] at hc
      exact List.mem_cons_of_mem _ (ih k2 c hc)

/-- Token removal does not cross an underscore separator: the token
contains no underscore, so occurrences lie entirely on one side. -/
theorem removeTok_append_aux (n : Nat) :
    ∀ A B : List Char, A.length ≤ n →
      removeTokAux 0 (A ++ '_' :: B) = removeTokAux 0 A ++ '_' :: removeTokAux 0 B := by
  induction n with
  | zero =>
    intro A B hA
    have : A = [] := List.eq_nil_of_length_eq_zero (Nat.le_zero.1 hA)
    subst this
    rw [List.nil_append]
    rw [show removeTokAux 0 ('_' :: B) =
      (if startsWith tokChars ('_' :: B) then removeTokAux 17 B
       else '_' :: removeTokAux 0 B) from rfl]
    have hsw : startsWith tokChars ('_' :: B) = false := by
      have := startsWith_append_sep tokChars [] B (by decide)
      rw [List.nil_append] at this
      rw [this]
      decide
    rw [if_neg (by rw [hsw]; exact Bool.false_ne_true)]
    rfl
  | succ n2 ih =>
    intro A B hA
    rcases A with _ | ⟨c, A2⟩
    · rw [List.nil_append]
      rw [show removeTokAux 0 ('_' :: B) =
        (if startsWith tokChars ('_' :: B) then removeTokAux 17 B
         else '_' :: removeTokAux 0 B) from rfl]
      have hsw : startsWith tokChars ('_' :: B) = false := by
        have := startsWith_append_sep tokChars [] B (by decide)
        rw [List.nil_append] at this
        rw [this]
        decide
      rw [if_neg (by rw [hsw]; exact Bool.false_ne_true)]
      rfl
    · have hA2 : A2.length ≤ n2 := by
        simpa using Nat.le_of_succ_le_succ hA
      have hsw : startsWith tokChars (c :: (A2 ++ '_' :: B)) = startsWith tokChars (c :: A2) := by
        have := startsWith_append_sep tokChars (c :: A2) B (by decide)
        rw [List.cons_append] at this
        exact this
      rw [List.cons_append]
      rw [show removeTokAux 0 (c :: (A2 ++ '_' :: B)) =
        (if startsWith tokChars (c :: (A2 ++ '_' :: B)) then removeTokAux 17 (A2 ++ '_' :: B)
         else c :: removeTokAux 0 (A2 ++ '_' :: B)) from rfl]
      rw [show removeTokAux 0 (c :: A2) =
        (if startsWith tokChars (c :: A2) then removeTokAux 17 A2
         else c :: removeTokAux 0 A2) from rfl]
      rw [hsw]
      by_cases hs : startsWith tokChars (c :: A2) = true
      · rw [if_pos hs, if_pos hs]
        have hlen : 17 ≤ A2.length := by
          have := startsWith_length tokChars (c :: A2) hs
          have htok : tokChars.length = 18 := rfl
          rw [htok] at this
          simpa using Nat.le_of_succ_le_succ this
        rw [removeTokAux_skip 17 (A2 ++ '_' :: B), removeTokAux_skip 17 A2]
        rw [List.drop_append_of_le_length hlen]
        exact ih (A2.drop 17) B (by simpa using Nat.le_trans (Nat.sub_le _ _) hA2)
      · rw [if_neg hs, if_neg hs]
        rw [ih A2 B hA2]
        rfl

/-- Token removal distributes over the underscore separator. -/
theorem removeTok_append (A B : List Char) :
    removeTok (A ++ '_' :: B) = removeTok A ++ '_' :: removeTok B :=
  removeTok_append_aux A.length A B (Nat.le_refl _)

/-- Lowercasing does not create whitespace. -/
theorem ofNat_not_ws (n : Nat) (h1 : 97 ≤ n) (h2 : n ≤ 122) :
    (Char.ofNat n).isWhitespace = false := by
  interval_cases n <;> decide

/-- If a lowercased character is whitespace, then so was the original. -/
theorem lowerChar_ws (c : Char) (h : (lowerChar c).isWhitespace = true) :
    c.isWhitespace = true := by
  rw [lowerChar] at h
  by_cases hb : 65 ≤ c.toNat ∧ c.toNat ≤ 90
  · rw [if_pos hb] at h
    have := ofNat_not_ws (c.toNat + 32) (by omega) (by omega)
    rw [this] at h
    exact absurd h Bool.false_ne_true
  · rw [if_neg hb] at h
    exact h

/-- Members of a zipped list come from members of the two inputs. -/
theorem mem_zipWith {α β γ : Type} (f : α → β → γ) (l1 : List α) (l2 : List β) :
    ∀ x ∈ List.zipWith f l1 l2, ∃ a b, a ∈ l1 ∧ b ∈ l2 ∧ x = f a b := by
  induction l1 generalizing l2 with
  | nil =>
    intro x hx
    simp at hx
  | cons a l1t ih =>
    intro x hx
    rcases l2 with _ | ⟨b, l2t⟩
    · simp at hx
    · rw [List.zipWith_cons_cons] at hx
      rcases List.mem_cons.1 hx with h1 | h1
      · exact ⟨a, b, List.mem_cons_self _ _, List.mem_cons_self _ _, h1⟩
      · rcases ih l2t x h1 with ⟨a2, b2, ha2, hb2, hx2⟩
        exact ⟨a2, b2, List.mem_cons_of_mem _ ha2, List.mem_cons_of_mem _ hb2, hx2⟩

/-- The characters of a synthesized name split at the underscore into
the cleaned pieces. -/
theorem joinClean_data (a b : String) :
    (joinClean a b).data = pieceClean a ++ '_' :: pieceClean b := by
  have h1 : (((a.data ++ '_' :: b.data).map lowerChar).filter
        (fun c => c != '*')).filter (fun c => c != ' ') =
      ((a.data.map lowerChar).filter (fun c => c != '*')).filter (fun c => c != ' ') ++
        '_' :: ((b.data.map lowerChar).filter (fun c => c != '*')).filter (fun c => c != ' ') := by
    rw [List.map_append, List.map_cons]
    rw [show lowerChar '_' = '_' from by decide]
    rw [List.filter_append, List.filter_cons]
    rw [if_pos (by decide)]
    rw [List.filter_append, List.filter_cons]
    rw [if_pos (by decide)]
  rw [show (joinClean a b).data =
    removeTok ((((a.data ++ '_' :: b.data).map lowerChar).filter
      (fun c => c != '*')).filter (fun c => c != ' ')) from rfl]
  rw [h1]
  exact removeTok_append _ _

/-- A character surviving the piece cleaning is a lowercased input
character and is neither a space nor a star. -/
theorem pieceClean_chars (s : String) (c : Char) (hc : c ∈ pieceClean s) :
    c ≠ ' ' ∧ c ≠ '*' ∧ ∃ c0 ∈ s.data, c = lowerChar c0 := by
  have h1 : c ∈ ((s.data.map lowerChar).filter
      (fun x => x != '*')).filter (fun x => x != ' ') :=
    removeTok_subset _ 0 c hc
  rcases List.mem_filter.1 h1 with ⟨h2, hsp⟩
  rcases List.mem_filter.1 h2 with ⟨h3, hst⟩
  rcases List.mem_map.1 h3 with ⟨c0, hc0, hceq⟩
  refine ⟨by simpa using hsp, by simpa using hst, c0, hc0, hceq.symm⟩

/-- Claim C2: for every supported input table, every synthesized column
name of the Column Normalizer contains no whitespace, no star, and no
occurrence of the substring `unnamed`. -/
theorem normalizer_output_names_clean (df : DataFrame) (hsup : supportedPieces df) :
    ∀ n ∈ (rename_fuel_data_columns df).columns, cleanName n := by
  intro n hn
  have hn2 : n ∈ newColumns df := hn
  rcases mem_zipWith joinClean (cleanedCols df) (strFirstRow df) n hn2
    with ⟨a, b, ha, hb, hab⟩
  have hpa := hsup.1 a ha
  have hpb := hsup.2 b hb
  subst hab
  constructor
  · intro c hc
    rw [joinClean_data] at hc
    have hside : ∀ s : String, pieceOK s → c ∈ pieceClean s →
        c.isWhitespace = false ∧ c ≠ '*' := by
      intro s hok hmem
      rcases pieceClean_chars s c hmem with ⟨hsp, hst, c0, hc0, hceq⟩
      refine ⟨?_, hst⟩
      cases hw : c.isWhitespace with
      | false => rfl
      | true =>
        exfalso
        have hc0w : c0.isWhitespace = true := by
          apply lowerChar_ws
          rw [← hceq]
          exact hw
        have : c0 = ' ' := hok.1 c0 hc0 hc0w
        rw [this] at hceq
        exact hsp (by rw [hceq]; decide)
    rcases List.mem_append.1 hc with h1 | h1
    · exact hside a hpa h1
    · rcases List.mem_cons.1 h1 with h2 | h2
      · rw [h2]
        exact ⟨by decide, by decide⟩
      · exact hside b hpb h2
  · rw [joinClean_data]
    rw [occursIn_append_sep unnamedChars (pieceClean a) (pieceClean b)
      (by decide) (by decide)]
    rw [hpa.2, hpb.2]
    rfl

/-- Witness for the name cleanliness theorem: the output name built
from an unnamed placeholder column of a concrete supported table. -/
theorem normalizer_output_names_clean_witness :
    supportedPieces wdf2 ∧ cleanName "fuelconsumption_city(l/100km)" := by
  constructor
  · decide
  · exact normalizer_output_names_clean wdf2 (by decide)
      "fuelconsumption_city(l/100km)" (by decide)

/-- Every row surviving the footer drop is a projection onto the kept
columns, hence has exactly one cell per kept column. -/
theorem mem_rowsStage2_length (df : DataFrame) (r : List (Option String))
    (hr : r ∈ rowsStage2 df) : r.length = (keptIdxs df).length := by
  have h1 : r ∈ rowsStage1 df := (List.mem_filter.1 hr).1
  have h2 : r ∈ df.rows.map (projectRow (keptIdxs df)) := (List.mem_filter.1 h1).1
  rcases List.mem_map.1 h2 with ⟨r0, _, heq⟩
  rw [← heq]
  simp [projectRow]

/-- When at least one data row survives, the zipped name synthesis does
not truncate: there is exactly one synthesized name per kept column. -/
theorem newColumns_length (df : DataFrame) (h : rowsStage2 df ≠ []) :
    (newColumns df).length = (keptIdxs df).length := by
  obtain ⟨r0, t, ht⟩ : ∃ r0 t, rowsStage2 df = r0 :: t := by
    rcases hh : rowsStage2 df with _ | ⟨r0, t⟩
    · exact absurd hh h
    · exact ⟨r0, t, rfl⟩
  have hK1 : (cleanedCols df).length = (keptIdxs df).length := by
    simp [cleanedCols, colsLower, colsKept]
  have hK2 : (strFirstRow df).length = (keptIdxs df).length := by
    rw [strFirstRow, ht, List.headD_cons, List.length_map]
    exact mem_rowsStage2_length df r0 (by rw [ht]; exact List.mem_cons_self _ _)
  rw [newColumns, List.length_zipWith, hK1, hK2, Nat.min_self]

/-- Claim C6: on a table with at least one surviving data row, the
Column Normalizer keeps exactly one column per kept input column, drops
exactly the first surviving data row from the surviving rows, and every
output row is an untouched projection of an input row onto the kept
columns: no data cell value is altered. -/
theorem normalizer_preserves_columns_and_cells (df : DataFrame)
    (h : rowsStage2 df ≠ []) :
    (rename_fuel_data_columns df).columns.length = (keptIdxs df).length ∧
    (rename_fuel_data_columns df).rows.length + 1 = (rowsStage2 df).length ∧
    ∀ rr ∈ (rename_fuel_data_columns df).rows,
      ∃ r ∈ df.rows, rr = projectRow (keptIdxs df) r := by
  obtain ⟨r0, t, ht⟩ : ∃ r0 t, rowsStage2 df = r0 :: t := by
    rcases hh : rowsStage2 df with _ | ⟨r0, t⟩
    · exact absurd hh h
    · exact ⟨r0, t, rfl⟩
  refine ⟨?_, ?_, ?_⟩
  · rw [show (rename_fuel_data_columns df).columns = newColumns df from rfl]
    exact newColumns_length df h
  · rw [show (rename_fuel_data_columns df).rows = (rowsStage2 df).tail from rfl]
    rw [ht]
    simp
  · intro rr hrr
    have hmem : rr ∈ rowsStage2 df := by
      rw [ht]
      rw [show (rename_fuel_data_columns df).rows = (rowsStage2 df).tail from rfl, ht] at hrr
      exact List.mem_cons_of_mem _ hrr
    have h1 : rr ∈ rowsStage1 df := (List.mem_filter.1 hmem).1
    have h2 : rr ∈ df.rows.map (projectRow (keptIdxs df)) := (List.mem_filter.1 h1).1
    rcases List.mem_map.1 h2 with ⟨r, hr, heq⟩
    exact ⟨r, hr, heq.symm⟩

/-- Witness for the frame preservation theorem on a concrete table. -/
theorem normalizer_preserves_columns_and_cells_witness :
    rowsStage2 wdf6 ≠ [] ∧
    (rename_fuel_data_columns wdf6).columns.length = (keptIdxs wdf6).length := by
  constructor
  · decide
  · exact (normalizer_preserves_columns_and_cells wdf6 (by decide)).1

/-! ### Lemmas about the per-column text cleaning -/

/-- Column assignment does not change the row length. -/
theorem mapRowAt_length (cols : List String) (r : List (Option String))
    (c : String) (f : Option String → Option String) :
    (mapRowAt cols r c f).length = r.length := by
  induction cols generalizing r with
  | nil => rfl
  | cons k ks ih =>
    rcases r with _ | ⟨v, vs⟩
    · rfl
    · rw [mapRowAt]
      by_cases hk : k = c
      · rw [if_pos hk]
        rfl
      · rw [if_neg hk]
        simpa using ih vs

/-- Reading a different label is unaffected by a column assignment. -/
theorem getCell_mapRowAt_other (cols : List String) (r : List (Option String))
    (c q : String) (f : Option String → Option String) (hq : q ≠ c) :
    getCell cols (mapRowAt cols r c f) q = getCell cols r q := by
  induction cols generalizing r with
  | nil => rfl
  | cons k ks ih =>
    rcases r with _ | ⟨v, vs⟩
    · rfl
    · rw [mapRowAt]
      by_cases hk : k = c
      · rw [if_pos hk]
        have hkq : k ≠ q := by
          rw [hk]
          exact fun hh => hq hh.symm
        rw [getCell, getCell, if_neg hkq, if_neg hkq]
      · rw [if_neg hk]
        rw [getCell, getCell]
        by_cases hkq : k = q
        · rw [if_pos hkq, if_pos hkq]
        · rw [if_neg hkq, if_neg hkq]
          exact ih vs

/-- Reading the assigned label returns the mapped cell when the column
exists (and the row is well formed). -/
theorem getCell_mapRowAt_self (cols : List String) (r : List (Option String))
    (c : String) (f : Option String → Option String) (hwf : r.length = cols.length) :
    getCell cols (mapRowAt cols r c f) c =
      if c ∈ cols then f (getCell cols r c) else getCell cols r c := by
  induction cols generalizing r with
  | nil => simp [mapRowAt, getCell]
  | cons k ks ih =>
    rcases r with _ | ⟨v, vs⟩
    · simp at hwf
    · rw [mapRowAt]
      by_cases hk : k = c
      · rw [if_pos hk]
        rw [getCell, getCell, if_pos hk, if_pos hk]
        rw [if_pos (by rw [← hk]; exact List.mem_cons_self _ _)]
      · rw [if_neg hk]
        rw [getCell, getCell, if_neg hk, if_neg hk]
        rw [ih vs (by simpa using hwf)]
        by_cases hmem : c ∈ ks
        · rw [if_pos hmem, if_pos (List.mem_cons_of_mem _ hmem)]
        · have hnotin : c ∉ k :: ks := by
            intro hin
            rcases List.mem_cons.1 hin with h1 | h1
            · exact hk h1.symm
            · exact hmem h1
          rw [if_neg hmem, if_neg hnotin]

/-- Reading an appended frame splits at the original column block when
the row is well formed. -/
theorem getCell_append_split (cols : List String) (r : List (Option String))
    (ks2 : List String) (vs2 : List (Option String)) (q : String)
    (hwf : r.length = cols.length) :
    getCell (cols ++ ks2) (r ++ vs2) q =
      if q ∈ cols then getCell cols r q else getCell ks2 vs2 q := by
  induction cols generalizing r with
  | nil =>
    have : r = [] := List.eq_nil_of_length_eq_zero hwf
    subst this
    simp
  | cons k ks ih =>
    rcases r with _ | ⟨v, vs⟩
    · simp at hwf
    · rw [List.cons_append, List.cons_append]
      rw [getCell]
      by_cases hk : k = q
      · rw [if_pos hk]
        rw [if_pos (by rw [← hk]; exact List.mem_cons_self _ _)]
        rw [getCell, if_pos hk]
      · rw [if_neg hk]
        rw [ih vs (by simpa using hwf)]
        by_cases hq : q ∈ ks
        · rw [if_pos hq, if_pos (List.mem_cons_of_mem _ hq)]
          rw [getCell, if_neg hk]
        · have hnotin : q ∉ k :: ks := by
            intro hin
            rcases List.mem_cons.1 hin with h1 | h1
            · exact hk h1.symm
            · exact hq h1
          rw [if_neg hq, if_neg hnotin]

/-- An absent column reads as all nulls. -/
theorem getColCells_not_mem (df : DataFrame) (q : String) (h : q ∉ df.columns) :
    getColCells df q = df.rows.map (fun _ => none) := by
  rw [getColCells]
  apply List.map_congr_left
  intro r hr
  exact getCell_not_mem df.columns r q h

/-- A column assignment leaves other columns untouched. -/
theorem getColCells_mapCol_other (df : DataFrame) (c q : String)
    (f : Option String → Option String) (hq : q ≠ c) :
    getColCells (mapCol df c f) q = getColCells df q := by
  rw [getColCells, getColCells]
  rw [show (mapCol df c f).columns = df.columns from rfl]
  rw [show (mapCol df c f).rows = df.rows.map (fun r => mapRowAt df.columns r c f) from rfl]
  rw [List.map_map]
  apply List.map_congr_left
  intro r hr
  exact getCell_mapRowAt_other df.columns r c q f hq

/-- A column assignment maps the cells of the assigned column when it
exists, on a well formed frame. -/
theorem getColCells_mapCol_self (df : DataFrame) (c : String)
    (f : Option String → Option String)
    (hwf : ∀ r ∈ df.rows, r.length = df.columns.length) :
    getColCells (mapCol df c f) c =
      if c ∈ df.columns then (getColCells df c).map f else getColCells df c := by
  rw [getColCells, getColCells]
  rw [show (mapCol df c f).columns = df.columns from rfl]
  rw [show (mapCol df c f).rows = df.rows.map (fun r => mapRowAt df.columns r c f) from rfl]
  rw [List.map_map]
  by_cases hm : c ∈ df.columns
  · rw [if_pos hm, List.map_map]
    apply List.map_congr_left
    intro r hr
    have := getCell_mapRowAt_self df.columns r c f (hwf r hr)
    rw [if_pos hm] at this
    exact this
  · rw [if_neg hm]
    apply List.map_congr_left
    intro r hr
    have := getCell_mapRowAt_self df.columns r c f (hwf r hr)
    rw [if_neg hm] at this
    exact this

/-- Joining the transmission columns does not change the cells of any
other column, on a well formed frame. -/
theorem getColCells_joinTransmission (df : DataFrame) (q : String)
    (hq1 : q ≠ "transmission_type") (hq2 : q ≠ "number_of_gears")
    (hwf : ∀ r ∈ df.rows, r.length = df.columns.length) :
    getColCells (joinTransmission df) q = getColCells df q := by
  rw [getColCells, getColCells]
  rw [show (joinTransmission df).columns =
    df.columns ++ ["transmission_type", "number_of_gears"] from rfl]
  rw [show (joinTransmission df).rows = df.rows.map (fun r =>
    r ++ [transmissionTypeCell (getCell df.columns r "transmission_"),
          numberOfGearsCell (getCell df.columns r "transmission_")]) from rfl]
  rw [List.map_map]
  apply List.map_congr_left
  intro r hr
  rw [Function.comp_apply]
  rw [getCell_append_split df.columns r _ _ q (hwf r hr)]
  by_cases hm : q ∈ df.columns
  · rw [if_pos hm]
  · rw [if_neg hm]
    rw [getCell_not_mem df.columns r q hm]
    rw [getCell, if_neg (fun hh => hq1 hh.symm)]
    rw [getCell, if_neg (fun hh => hq2 hh.symm)]
    rfl

/-- The scan keeps only elements of its input. -/
theorem keepFirstScan_subset {α : Type} [DecidableEq α] (l : List α) :
    ∀ (seen : List α) x, x ∈ keepFirstScan seen l → x ∈ l := by
  induction l with
  | nil =>
    intro seen x hx
    simp [keepFirstScan] at hx
  | cons y ys ih =>
    intro seen x hx
    rw [keepFirstScan] at hx
    by_cases hy : y ∈ seen
    · rw [if_pos hy] at hx
      exact List.mem_cons_of_mem _ (ih seen x hx)
    · rw [if_neg hy] at hx
      rcases List.mem_cons.1 hx with h1 | h1
      · rw [h1]
        exact List.mem_cons_self _ _
      · exact List.mem_cons_of_mem _ (ih (y :: seen) x h1)

/-- Every row of the Column Normalizer output has one cell per output
column. -/
theorem rename_wf (df : DataFrame) :
    ∀ r ∈ (rename_fuel_data_columns df).rows,
      r.length = (rename_fuel_data_columns df).columns.length := by
  intro r hr
  rcases hh : rowsStage2 df with _ | ⟨r0, t⟩
  · rw [show (rename_fuel_data_columns df).rows = (rowsStage2 df).tail from rfl, hh] at hr
    simp at hr
  · have hne : rowsStage2 df ≠ [] := by
      rw [hh]
      exact List.cons_ne_nil _ _
    have hmem : r ∈ rowsStage2 df := by
      rw [show (rename_fuel_data_columns df).rows = (rowsStage2 df).tail from rfl, hh] at hr
      rw [hh]
      exact List.mem_cons_of_mem _ hr
    rw [show (rename_fuel_data_columns df).columns = newColumns df from rfl]
    rw [newColumns_length df hne]
    exact mem_rowsStage2_length df r hmem

/-- The deduplicated frame is well formed. -/
theorem dedupedFrame_wf (df : DataFrame) :
    ∀ r ∈ (dedupedFrame df).rows, r.length = (dedupedFrame df).columns.length := by
  intro r hr
  have : r ∈ (rename_fuel_data_columns df).rows :=
    keepFirstScan_subset _ [] r hr
  exact rename_wf df r this

/-- Column assignment preserves well-formedness. -/
theorem mapCol_wf (df : DataFrame) (c : String) (f : Option String → Option String)
    (hwf : ∀ r ∈ df.rows, r.length = df.columns.length) :
    ∀ r ∈ (mapCol df c f).rows, r.length = (mapCol df c f).columns.length := by
  intro r hr
  rcases List.mem_map.1 hr with ⟨r0, hr0, heq⟩
  rw [← heq]
  rw [mapRowAt_length]
  exact hwf r0 hr0

/-- Claim C9 (amended): relative to the frame right after duplicate
removal, `read_and_clean_df` lowercases and strips the make field,
only lowercases the model field (no whitespace trimming), and
lowercases the vehicle class field and rewrites colons to space-dash;
null cells stay null. -/
theorem text_cleaning_case_and_colon_amended (df : DataFrame) :
    getColCells (read_and_clean_df df) "make_" =
      (getColCells (dedupedFrame df) "make_").map
        (Option.map (fun s => strStrip (strLower s))) ∧
    getColCells (read_and_clean_df df) "model.1_" =
      (getColCells (dedupedFrame df) "model.1_").map (Option.map strLower) ∧
    getColCells (read_and_clean_df df) "vehicleclass_" =
      (getColCells (dedupedFrame df) "vehicleclass_").map
        (Option.map (fun s => strReplaceColon (strLower s))) := by
  have hwfD := dedupedFrame_wf df
  have hwf1 := mapCol_wf (dedupedFrame df) "make_"
    (Option.map (fun s => strStrip (strLower s))) hwfD
  have hwf2 := mapCol_wf
    (mapCol (dedupedFrame df) "make_" (Option.map (fun s => strStrip (strLower s))))
    "model.1_" (Option.map strLower) hwf1
  have hwf3 := mapCol_wf
    (mapCol (mapCol (dedupedFrame df) "make_" (Option.map (fun s => strStrip (strLower s))))
      "model.1_" (Option.map strLower))
    "vehicleclass_" (Option.map strLower) hwf2
  have hwf4 := mapCol_wf
    (mapCol (mapCol (mapCol (dedupedFrame df) "make_"
        (Option.map (fun s => strStrip (strLower s))))
      "model.1_" (Option.map strLower)) "vehicleclass_" (Option.map strLower))
    "vehicleclass_" (Option.map strReplaceColon) hwf3
  have hnone : ∀ (q : String), q ∉ (dedupedFrame df).columns →
      ∀ g : Option String → Option String, g none = none →
      getColCells (dedupedFrame df) q = (getColCells (dedupedFrame df) q).map g := by
    intro q hq g hg
    rw [getColCells_not_mem (dedupedFrame df) q hq, List.map_map]
    apply List.map_congr_left
    intro r hr
    rw [Function.comp_apply, hg]
  refine ⟨?_, ?_, ?_⟩
  · rw [show read_and_clean_df df = joinTransmission
      (mapCol (mapCol (mapCol (mapCol (dedupedFrame df) "make_"
          (Option.map (fun s => strStrip (strLower s))))
        "model.1_" (Option.map strLower)) "vehicleclass_" (Option.map strLower))
      "vehicleclass_" (Option.map strReplaceColon)) from rfl]
    rw [getColCells_joinTransmission _ "make_" (by decide) (by decide) hwf4]
    rw [getColCells_mapCol_other _ "vehicleclass_" "make_" _ (by decide)]
    rw [getColCells_mapCol_other _ "vehicleclass_" "make_" _ (by decide)]
    rw [getColCells_mapCol_other _ "model.1_" "make_" _ (by decide)]
    rw [getColCells_mapCol_self (dedupedFrame df) "make_" _ hwfD]
    by_cases hm : "make_" ∈ (dedupedFrame df).columns
    · rw [if_pos hm]
    · rw [if_neg hm]
      exact hnone "make_" hm _ rfl
  · rw [show read_and_clean_df df = joinTransmission
      (mapCol (mapCol (mapCol (mapCol (dedupedFrame df) "make_"
          (Option.map (fun s => strStrip (strLower s))))
        "model.1_" (Option.map strLower)) "vehicleclass_" (Option.map strLower))
      "vehicleclass_" (Option.map strReplaceColon)) from rfl]
    rw [getColCells_joinTransmission _ "model.1_" (by decide) (by decide) hwf4]
    rw [getColCells_mapCol_other _ "vehicleclass_" "model.1_" _ (by decide)]
    rw [getColCells_mapCol_other _ "vehicleclass_" "model.1_" _ (by decide)]
    rw [getColCells_mapCol_self _ "model.1_" _ hwf1]
    rw [show (mapCol (dedupedFrame df) "make_"
        (Option.map (fun s => strStrip (strLower s)))).columns =
      (dedupedFrame df).columns from rfl]
    rw [getColCells_mapCol_other _ "make_" "model.1_" _ (by decide)]
    by_cases hm : "model.1_" ∈ (dedupedFrame df).columns
    · rw [if_pos hm]
    · rw [if_neg hm]
      exact hnone "model.1_" hm _ rfl
  · rw [show read_and_clean_df df = joinTransmission
      (mapCol (mapCol (mapCol (mapCol (dedupedFrame df) "make_"
          (Option.map (fun s => strStrip (strLower s))))
        "model.1_" (Option.map strLower)) "vehicleclass_" (Option.map strLower))
      "vehicleclass_" (Option.map strReplaceColon)) from rfl]
    rw [getColCells_joinTransmission _ "vehicleclass_" (by decide) (by decide) hwf4]
    rw [getColCells_mapCol_self _ "vehicleclass_" _ hwf3]
    rw [show (mapCol (mapCol (mapCol (dedupedFrame df) "make_"
        (Option.map (fun s => strStrip (strLower s))))
      "model.1_" (Option.map strLower)) "vehicleclass_" (Option.map strLower)).columns =
      (dedupedFrame df).columns from rfl]
    rw [getColCells_mapCol_self _ "vehicleclass_" _ hwf2]
    rw [show (mapCol (mapCol (dedupedFrame df) "make_"
        (Option.map (fun s => strStrip (strLower s))))
      "model.1_" (Option.map strLower)).columns = (dedupedFrame df).columns from rfl]
    rw [getColCells_mapCol_other _ "model.1_" "vehicleclass_" _ (by decide)]
    rw [getColCells_mapCol_other _ "make_" "vehicleclass_" _ (by decide)]
    by_cases hm : "vehicleclass_" ∈ (dedupedFrame df).columns
    · rw [if_pos hm, if_pos hm]
      rw [List.map_map]
      apply List.map_congr_left
      intro v hv
      rw [Function.comp_apply]
      rcases v with _ | sv
      · rfl
      · rfl
    · rw [if_neg hm, if_neg hm]
      exact hnone "vehicleclass_" hm _ rfl

/-- Claim C9 is refuted on a concrete table: the model cell keeps its
surrounding blanks through `read_and_clean_df` (it is lowercased but not
stripped), so whitespace trimming is not applied to the model field. -/
theorem text_cleaning_trim_only_make_counterexample :
    getColCells (read_and_clean_df wdf9) "model.1_" = [some " y "] ∧
    (some " y " : Option String) ≠ some (strStrip (strLower " Y ")) := by
  constructor
  · decide
  · decide

/-! ### Lemmas about duplicate removal and identities -/

/-- The scan never emits an already seen value, and its output has no
duplicates. -/
theorem keepFirstScan_nodup {α : Type} [DecidableEq α] (l : List α) :
    ∀ seen : List α,
      (keepFirstScan seen l).Nodup ∧ ∀ x ∈ keepFirstScan seen l, x ∉ seen := by
  induction l with
  | nil =>
    intro seen
    constructor
    · exact List.nodup_nil
    · intro x hx
      simp [keepFirstScan] at hx
  | cons y ys ih =>
    intro seen
    rw [keepFirstScan]
    by_cases hy : y ∈ seen
    · rw [if_pos hy]
      exact ih seen
    · rw [if_neg hy]
      constructor
      · rw [List.nodup_cons]
        constructor
        · intro hmem
          exact (ih (y :: seen)).2 y hmem (List.mem_cons_self _ _)
        · exact (ih (y :: seen)).1
      · intro x hx
        rcases List.mem_cons.1 hx with h1 | h1
        · rw [h1]
          exact hy
        · intro hseen
          exact (ih (y :: seen)).2 x h1 (List.mem_cons_of_mem _ hseen)

/-- The scan output is a sublist of the input: rows keep their order. -/
theorem keepFirstScan_sublist {α : Type} [DecidableEq α] (l : List α) :
    ∀ seen : List α, List.Sublist (keepFirstScan seen l) l := by
  induction l with
  | nil =>
    intro seen
    exact List.Sublist.refl _
  | cons y ys ih =>
    intro seen
    rw [keepFirstScan]
    by_cases hy : y ∈ seen
    · rw [if_pos hy]
      exact List.Sublist.cons y (ih seen)
    · rw [if_neg hy]
      exact List.Sublist.cons₂ y (ih (y :: seen))

/-- Every unseen input value survives the scan. -/
theorem keepFirstScan_complete {α : Type} [DecidableEq α] (l : List α) :
    ∀ seen : List α, ∀ x ∈ l, x ∈ keepFirstScan seen l ∨ x ∈ seen := by
  induction l with
  | nil =>
    intro seen x hx
    simp at hx
  | cons y ys ih =>
    intro seen x hx
    rw [keepFirstScan]
    by_cases hy : y ∈ seen
    · rw [if_pos hy]
      rcases List.mem_cons.1 hx with h1 | h1
      · right
        rw [h1]
        exact hy
      · exact ih seen x h1
    · rw [if_neg hy]
      rcases List.mem_cons.1 hx with h1 | h1
      · left
        rw [h1]
        exact List.mem_cons_self _ _
      · rcases ih (y :: seen) x h1 with h2 | h2
        · exact Or.inl (List.mem_cons_of_mem _ h2)
        · rcases List.mem_cons.1 h2 with h3 | h3
          · left
            rw [h3]
            exact List.mem_cons_self _ _
          · exact Or.inr h3

/-- The left-to-right scan with a seen set agrees with the
filter-and-recurse formulation of keep-first duplicate removal. -/
theorem keepFirstScan_eq_dedupFilter {α : Type} [DecidableEq α] (l : List α) :
    ∀ seen : List α,
      keepFirstScan seen l = dedupFilter (l.filter (fun x => decide (x ∉ seen))) := by
  induction l with
  | nil =>
    intro seen
    rw [List.filter_nil]
    rw [keepFirstScan, dedupFilter]
  | cons y ys ih =>
    intro seen
    rw [List.filter_cons, keepFirstScan]
    by_cases hy : y ∈ seen
    · rw [if_pos hy]
      rw [if_neg (by simp [hy])]
      exact ih seen
    · rw [if_neg hy]
      rw [if_pos (by simp [hy])]
      rw [dedupFilter]
      rw [List.filter_filter]
      rw [ih (y :: seen)]
      have hcong : ys.filter (fun a => decide (a ∉ y :: seen)) =
          ys.filter (fun a => (a != y) && decide (a ∉ seen)) := by
        apply List.filter_congr
        intro a ha
        by_cases h1 : a = y
        · simp [h1]
        · by_cases h2 : a ∈ seen
          · simp [h1, h2]
          · simp [h1, h2]
      rw [hcong]

/-- Rows paired with sequential identities are pairwise distinct. -/
theorem addId_nodup (rows : List (List (Option String))) : (addId rows).Nodup := by
  have h1 : (addId rows).map Prod.fst = List.range' 1 rows.length := by
    apply List.map_fst_zip
    simp
  apply List.Nodup.of_map Prod.fst
  rw [h1]
  exact List.nodup_range' 1 rows.length

/-- Claim C10: inside `read_and_clean_df` the duplicate drop runs right
after column normalization and before any category-specific reshaping:
the deduplicated rows are exactly the keep-first deduplication of the
normalized rows (no duplicates remain, rows keep their order, and no
row value is lost), and any reshaped table built by pairing rows with
the sequential integer identity has no two identical rows. -/
theorem dedup_before_reshaping_and_distinct_ids (df : DataFrame) :
    (dedupedFrame df).rows = dedupFilter (rename_fuel_data_columns df).rows ∧
    (dedupedFrame df).rows.Nodup ∧
    List.Sublist (dedupedFrame df).rows (rename_fuel_data_columns df).rows ∧
    (∀ r, r ∈ (dedupedFrame df).rows ↔ r ∈ (rename_fuel_data_columns df).rows) ∧
    ∀ rows2 : List (List (Option String)), (addId rows2).Nodup := by
  refine ⟨?_, ?_, ?_, ?_, addId_nodup⟩
  · rw [show (dedupedFrame df).rows =
      keepFirstScan [] (rename_fuel_data_columns df).rows from rfl]
    rw [keepFirstScan_eq_dedupFilter]
    have hfil : (rename_fuel_data_columns df).rows.filter
        (fun x => decide (x ∉ ([] : List (List (Option String))))) =
        (rename_fuel_data_columns df).rows := by
      apply List.filter_eq_self.2
      intro a ha
      simp
    rw [hfil]
  · exact (keepFirstScan_nodup (rename_fuel_data_columns df).rows []).1
  · exact keepFirstScan_sublist (rename_fuel_data_columns df).rows []
  · intro r
    constructor
    · exact keepFirstScan_subset (rename_fuel_data_columns df).rows [] r
    · intro hr
      rcases keepFirstScan_complete (rename_fuel_data_columns df).rows [] r hr with h1 | h1
      · exact h1
      · simp at h1

